import Mathlib

/-!
Verification of `fetch-youtube-videos.ts` (HealthSamurai/xmas-hackathon-2023).

The script is a sequential pipeline: resolve a channel handle, locate the
uploads playlist, paginate over video ids, batch-fetch video details, sort by
view count, and emit a table plus a JSON file.  Below, each function of the
script is embedded as a Lean definition; strings are Lean `String`s (lists of
characters), machine numbers are `Nat`/`Int`.
-/

/-- The `Video` interface of the script (fields `id`, `title`, `publishedAt`,
`viewCount`, `likeCount`, `commentCount`, `duration`, `url`). -/
structure Video where
  id : String
  title : String
  publishedAt : String
  viewCount : Nat
  likeCount : Nat
  commentCount : Nat
  duration : String
  url : String
deriving DecidableEq, Repr

/-! Section: formatDuration

The source matches `isoDuration` against the JavaScript regular expression
`PT(?:(\d+)H)?(?:(\d+)M)?(?:(\d+)S)?` (unanchored, so the engine scans for the
first literal occurrence of `PT` and all three groups are optional), then
renders `hours`, `minutes`, `seconds` with the padding rules of lines 98-102. -/

/-- One optional group `(?:(\d+)U)?` of the duration regular expression,
matched greedily at the current position: if a non-empty maximal run of digits
is followed by the unit character `unit`, the group captures the run and
consumes it together with the unit; otherwise the group captures nothing and
the position is unchanged (a shorter digit run can never help, because the
character after it would be a digit, not the unit). -/
def matchGroup (unit : Char) (cs : List Char) : Option (List Char) × List Char :=
  let ds := cs.takeWhile Char.isDigit
  let rest := cs.dropWhile Char.isDigit
  if ds.isEmpty then (none, cs)
  else
    match rest with
    | u :: rest2 => if u = unit then (some ds, rest2) else (none, cs)
    | [] => (none, cs)

/-- The three captured groups (hours, minutes, seconds) once the literal `PT`
has been consumed. -/
def runGroups (cs : List Char) : Option (List Char) × Option (List Char) × Option (List Char) :=
  let (h, r1) := matchGroup 'H' cs
  let (m, r2) := matchGroup 'M' r1
  let (s, _) := matchGroup 'S' r2
  (h, m, s)

/-- Embedding of `isoDuration.match(/PT(?:(\d+)H)?(?:(\d+)M)?(?:(\d+)S)?/)`: the regular
expression is unanchored, so matching succeeds at the first position where the
literal `PT` occurs (the optional groups can never cause failure), and returns
the three captured groups; if no `PT` occurs the match is `null` (`none`). -/
def matchPT : List Char → Option (Option (List Char) × Option (List Char) × Option (List Char))
  | [] => none
  | [_] => none
  | a :: b :: rest =>
    if a = 'P' ∧ b = 'T' then some (runGroups rest) else matchPT (b :: rest)

/-- JavaScript `s.padStart(n, "0")`. -/
def padStartZero (n : Nat) (s : List Char) : List Char :=
  List.replicate (n - s.length) '0' ++ s

/-- Lines 98-102 of the source, given the three captured groups: hours render
as `h:` when captured and empty otherwise; minutes are zero-padded to 2 when
hours are present (else to 1) and default to `0`; seconds are zero-padded to 2
and default to `00`; the result is `hours ++ minutes ++ ":" ++ seconds`. -/
def renderDuration (h m s : Option (List Char)) : List Char :=
  let hours : List Char := match h with
    | some hd => hd ++ [':']
    | none => []
  let minutes : List Char := match m with
    | some md => padStartZero (if h.isSome then 2 else 1) md
    | none => ['0']
  let seconds : List Char := match s with
    | some sd => padStartZero 2 sd
    | none => ['0', '0']
  hours ++ minutes ++ [':'] ++ seconds

/-- The function `formatDuration` of the script: on a regular-expression match, render the
captured groups; on no match the input is returned unmodified. -/
def formatDuration (isoDuration : String) : String :=
  match matchPT isoDuration.toList with
  | none => isoDuration
  | some (h, m, s) => String.mk (renderDuration h m s)

/-! Section: formatNumber

`num >= 1_000_000` renders `(num / 1_000_000).toFixed(1) + "M"`, `num >= 1_000`
renders `(num / 1_000).toFixed(1) + "K"`, otherwise `num.toString()`.
JavaScript divides in IEEE-754 binary64: the division stores the double
nearest to the exact quotient (round-to-nearest, ties-to-even on a 53-bit
significand), and `toFixed(1)` then rounds the *stored double* to an integer
number of tenths, ties away from zero (the ECMAScript "pick the larger n"
rule).  Both roundings are embedded below with exact integer arithmetic, so
e.g. `1150 / 1000` stores `1.1499999999999999...` and prints `1.1`, exactly as
the source does.  The embedding covers quotients in `[1, 2^53)` — the regime
the source's branch guards produce for every JavaScript-exact integer input —
where the dividend, the divisor and the `toFixed` path behave as modelled. -/

/-- Round-to-nearest, ties-to-even, of the rational `p / q` (the IEEE-754
default rounding applied to an integer grid). -/
def roundHalfEven (p q : Nat) : Nat :=
  let i := p / q
  let r := p % q
  if 2 * r < q then i
  else if q < 2 * r then i + 1
  else if i % 2 = 0 then i else i + 1

/-- Fuel-driven binary length: number of binary digits of `v` (0 for 0). -/
def bitLenAux : Nat → Nat → Nat
  | 0, _ => 0
  | fuel + 1, v => if v = 0 then 0 else bitLenAux fuel (v / 2) + 1

/-- Binary length of `v`: the unique `E` with `2 ^ (E - 1) ≤ v < 2 ^ E` for
`v ≥ 1`. -/
def bitLen (v : Nat) : Nat := bitLenAux v v

/-- The tenths integer printed by `(num / d).toFixed(1)` for `num ≥ d ≥ 1`:
with `E` the binade of the quotient, the binary64 division stores
`m * 2 ^ (E - 53)` where `m` is the 53-bit significand of `num / d` rounded
ties-to-even, and `toFixed(1)` then yields `⌊10 * m * 2 ^ (E - 53) + 1/2⌋`. -/
def tenths (num d : Nat) : Nat :=
  let E := bitLen (num / d)
  let m := roundHalfEven (num * 2 ^ (53 - E)) (d * 2 ^ (E - 53))
  (20 * m * 2 ^ (E - 53) + 2 ^ (53 - E)) / (2 * 2 ^ (53 - E))

/-- Embedding of `(num / d).toFixed(1)`: the tenths integer rendered as
`⌊k/10⌋.(k mod 10)`. -/
def toFixed1 (num d : Nat) : String :=
  toString (tenths num d / 10) ++ "." ++ toString (tenths num d % 10)

/-- The function `formatNumber` of the script. -/
def formatNumber (num : Nat) : String :=
  if num ≥ 1000000 then toFixed1 num 1000000 ++ "M"
  else if num ≥ 1000 then toFixed1 num 1000 ++ "K"
  else toString num

/-! Section: sorting, ranking, table row title, JSON output (lines 139-159) -/

/-- Line 139, `videos.sort((a, b) => b.viewCount - a.viewCount)`: sort by view
count descending (the comparator accepts `a` before `b` iff
`b.viewCount - a.viewCount ≤ 0`).  ECMAScript leaves tie order to the runtime;
a stable merge sort (as V8 uses) is taken here. -/
def sortVideos (videos : List Video) : List Video :=
  videos.mergeSort (fun a b => b.viewCount ≤ a.viewCount)

/-- Line 147-148: ranks are `index + 1` over the sorted list, so the rank is a
function of the final sorted position only. -/
def rankedVideos (videos : List Video) : List (Nat × Video) :=
  (sortVideos videos).enum.map (fun p => (p.1 + 1, p.2))

/-- Line 148: the table-row title,
`video.title.length > 60 ? video.title.slice(0, 57) + "..." : video.title`. -/
def truncateTitle (title : String) : String :=
  if title.length > 60 then String.mk (title.toList.take 57 ++ ['.', '.', '.'])
  else title

/-- One entry of the JSON output (lines 155-159): the video's fields spread in
full, plus `rank` and `durationFormatted`. -/
structure JsonEntry where
  rank : Nat
  video : Video
  durationFormatted : String
deriving DecidableEq, Repr

/-- Lines 155-159: `videos.map((v, i) => ({ rank: i + 1, ...v,
durationFormatted: formatDuration(v.duration) }))` over the sorted list. -/
def jsonOutput (videos : List Video) : List JsonEntry :=
  (sortVideos videos).enum.map
    (fun p => ⟨p.1 + 1, p.2, formatDuration p.2.duration⟩)

/-! Section: getVideoDetails (lines 65-92)

The loop `for (let i = 0; i < videoIds.length; i += 50)` slices the id list
into consecutive batches of at most 50 and issues one request per batch.  The
platform's response to a batch is modelled by an oracle
`details : String → Option Video` giving, for each requested id, the item the
platform returns for it (or `none` for e.g. deleted/private videos); the
response items of a batch are those of its ids that the platform knows, in
batch order.  Each response item is pushed onto the accumulating list. -/

/-- The batches `videoIds.slice(i, i + 50)` for `i = 0, 50, 100, ...`,
structurally recursive on a fuel bounded by the list length. -/
def chunksAux : Nat → List String → List (List String)
  | _, [] => []
  | 0, _ :: _ => []
  | fuel + 1, a :: rest => ((a :: rest).take 50) :: chunksAux fuel ((a :: rest).drop 50)

/-- The batch decomposition of the id list. -/
def chunks (videoIds : List String) : List (List String) :=
  chunksAux videoIds.length videoIds

/-- The function `getVideoDetails`: one request per batch, each response item appended. -/
def getVideoDetails (details : String → Option Video) (videoIds : List String) : List Video :=
  ((chunks videoIds).map (fun batch => batch.filterMap details)).flatten

/-! Section: getAllVideoIds (lines 45-63)

Cursor-based pagination: fetch a page, append its video ids, take the page's
`nextPageToken`, and loop while a token is present.  The API is modelled as a
finite sequence of pages addressed by index: the first request (no token)
returns page 0, and a token is the index of the page it fetches.  The
do/while loop is embedded with explicit fuel; `none` means the fuel was
exhausted (the loop would still be running), so termination is a theorem, not
an assumption. -/

/-- One page of `playlistItems`: its video ids and its optional continuation
token. -/
structure Page where
  items : List String
  nextPageToken : Option Nat
deriving DecidableEq, Repr

/-- The do/while loop of `getAllVideoIds`, fetching page `idx`, with fuel. -/
def getAllVideoIdsLoop (pages : List Page) : Nat → Nat → List String → Option (List String)
  | 0, _, _ => none
  | fuel + 1, idx, acc =>
    match pages[idx]? with
    | none => none
    | some p =>
      match p.nextPageToken with
      | none => some (acc ++ p.items)
      | some t => getAllVideoIdsLoop pages fuel t (acc ++ p.items)

/-- The function `getAllVideoIds`: run the pagination loop from the first request with fuel
equal to the number of pages. -/
def getAllVideoIds (pages : List Page) : Option (List String) :=
  getAllVideoIdsLoop pages pages.length 0 []

/-! Section: main and the top-level catch (lines 111-165)

What can go wrong in the pipeline, per stage, is: a transport failure of any
fetch (a rejected promise), the explicit `throw new Error("Channel not
found: ...")` of `getChannelId`, and the `TypeError` raised in
`getUploadsPlaylistId` when `data.items[0].contentDetails.relatedPlaylists
.uploads` is absent.  A run's external world is modelled stage-coarsely: each
stage's raw response is an `Except` value (`.error` = the stage's fetch
rejected), and `main` chains the stages exactly as the `await`s of lines
127-161 do, writing the JSON file only as its final step.  An error anywhere
short-circuits everything after it. -/

/-- The channel handle constant of line 12. -/
def CHANNEL_HANDLE : String := "@aidotengineer"

/-- The errors a run can end with. -/
inductive PipeError where
  | network : Nat → PipeError
  | channelNotFound : String → PipeError
  | missingField : PipeError
deriving DecidableEq, Repr

/-- The responses the outside world gives to the four pipeline stages.
`channelItems` is the `data.items` id list of the channel lookup,
`channelContent` the nested `relatedPlaylists.uploads` field (`none` =
absent), `videoIdPages` the outcome of the pagination stage, and `details`
the outcome of the batched detail fetch applied to the collected ids. -/
structure Env where
  channelItems : Except PipeError (List String)
  channelContent : Except PipeError (Option String)
  videoIdPages : Except PipeError (List String)
  details : List String → Except PipeError (List Video)

/-- The function `getChannelId` (lines 25-35): fail on transport error; throw
`Channel not found` when `data.items` is empty; else return the first id. -/
def getChannelId (env : Env) (handle : String) : Except PipeError String := do
  let items ← env.channelItems
  match items with
  | [] => throw (PipeError.channelNotFound handle)
  | c :: _ => pure c

/-- The function `getUploadsPlaylistId` (lines 37-43): fail on transport error; reading
`data.items[0].contentDetails.relatedPlaylists.uploads` raises a `TypeError`
when the nested field is absent. -/
def getUploadsPlaylistId (env : Env) : Except PipeError String := do
  let content ← env.channelContent
  match content with
  | none => throw PipeError.missingField
  | some uploads => pure uploads

/-- The function `main` (lines 111-163): chain the four stages, sort, and produce the JSON
output that line 161 writes; any stage error short-circuits. -/
def mainRun (env : Env) : Except PipeError (List JsonEntry) := do
  let _channelId ← getChannelId env CHANNEL_HANDLE
  let _uploadsPlaylistId ← getUploadsPlaylistId env
  let videoIds ← env.videoIdPages
  let videos ← env.details videoIds
  pure (jsonOutput videos)

/-- The observable end state of a run: the process exit code, the error the
final handler printed (if any), and the JSON file contents (if written). -/
structure ProcResult where
  exitCode : Nat
  printedError : Option PipeError
  jsonFile : Option (List JsonEntry)
deriving DecidableEq, Repr

/-- Line 165, `main().catch(console.error)`: a rejection of `main()` is
*caught* by the handler, which prints it; the rejection therefore never
reaches the runtime's unhandled-rejection path, and the process exits
normally with code 0 in either case (JavaScript promise semantics: a promise
with a rejection handler is a handled promise). -/
def runTop (env : Env) : ProcResult :=
  match mainRun env with
  | Except.ok out => ⟨0, none, some out⟩
  | Except.error e => ⟨0, some e, none⟩

/-! Section: specification-side notions and concrete instances

These definitions belong to the statements of the theorems below: the
specification-side reading of pattern matching and of the rendered fields,
and the concrete pages, identifiers, videos and environments the witnesses
evaluate on. -/

/-- The specification-side reading of "the input matches the pattern": the
string contains the literal substring `PT` somewhere. -/
def hasPT (cs : List Char) : Prop :=
  ∃ pre post, cs = pre ++ 'P' :: 'T' :: post

/-- The textual form of an optional duration component: digits followed by the
unit letter when present, empty when absent. -/
def optPart (o : Option (List Char)) (unit : Char) : List Char :=
  match o with
  | some ds => ds ++ [unit]
  | none => []

/-- The minutes field of an hours-present rendering: zero-padded to 2 digits
when present, the single character `0` when absent. -/
def minutesField (mo : Option (List Char)) : List Char :=
  match mo with
  | some md => padStartZero 2 md
  | none => ['0']

/-- The seconds field of a rendering: zero-padded to 2 digits when present,
`00` when absent. -/
def secondsField (so : Option (List Char)) : List Char :=
  match so with
  | some sd => padStartZero 2 sd
  | none => ['0', '0']

/-- A fixed video record used to build concrete detail responses. -/
def mkVid (s : String) : Video :=
  ⟨s, s, "2023-12-01T00:00:00Z", 0, 0, 0, "PT1M", s⟩

/-- The 120 distinct identifiers `"0"` through `"119"`. -/
def demoIds120 : List String :=
  (List.range 120).map (fun n => toString n)

/-- A platform response in which exactly the identifier `"59"` has no
matching item (e.g. a deleted video). -/
def demoDetails (s : String) : Option Video :=
  if s = "59" then none else some (mkVid s)

/-- A concrete two-page playlist: page 0 carries a cursor to page 1, the last
page carries none. -/
def demoPages : List Page :=
  [⟨["a", "b"], some 1⟩, ⟨["c"], none⟩]

/-- A concrete video with 10 views. -/
def vidA : Video := ⟨"a", "video a", "2023-01-01", 10, 1, 0, "PT1M", "a"⟩

/-- A concrete video with 5 views. -/
def vidB : Video := ⟨"b", "video b", "2023-01-02", 5, 2, 0, "PT2M", "b"⟩

/-- A concrete two-video list (already in descending view-count order). -/
def demoVideos : List Video := [vidA, vidB]

/-- A concrete 70-character title. -/
def demoTitle70 : String := String.mk (List.replicate 70 'a')

/-- A run whose very first fetch (the channel lookup) fails at the transport
level. -/
def badEnv : Env where
  channelItems := Except.error (PipeError.network 0)
  channelContent := Except.ok (some "UUxxxx")
  videoIdPages := Except.ok []
  details := fun _ => Except.ok []

/-! Section: helper lemmas about the duration regular expression -/

/-- Scanning for digits over a digit run followed by a non-digit stops exactly
at the non-digit. -/
theorem digit_scan_append (ds rest : List Char) (u : Char)
    (hdig : ∀ c ∈ ds, c.isDigit) (hu : ¬ u.isDigit) :
    (ds ++ u :: rest).takeWhile Char.isDigit = ds ∧
      (ds ++ u :: rest).dropWhile Char.isDigit = u :: rest := by
  induction ds with
  | nil =>
    simp [List.takeWhile_cons_of_neg hu, List.dropWhile_cons_of_neg hu]
  | cons d ds ih =>
    have hd : Char.isDigit d := hdig d (by simp)
    have ih2 := ih (fun c hc => hdig c (by simp [hc]))
    simp only [List.cons_append, List.takeWhile_cons_of_pos hd,
      List.dropWhile_cons_of_pos hd]
    exact ⟨by rw [ih2.1], ih2.2⟩

/-- A maximal digit run followed by the right unit: the group captures the
run. -/
theorem matchGroup_hit (u : Char) (ds rest : List Char) (hne : ds ≠ [])
    (hdig : ∀ c ∈ ds, c.isDigit) (hu : ¬ u.isDigit) :
    matchGroup u (ds ++ u :: rest) = (some ds, rest) := by
  have h := digit_scan_append ds rest u hdig hu
  simp [matchGroup, h.1, h.2, hne]

/-- A maximal digit run followed by a wrong unit: the group captures nothing
and the position is unchanged. -/
theorem matchGroup_wrong_unit (u v : Char) (ds rest : List Char)
    (hdig : ∀ c ∈ ds, c.isDigit) (hv : ¬ v.isDigit) (hvu : v ≠ u) :
    matchGroup u (ds ++ v :: rest) = (none, ds ++ v :: rest) := by
  have h := digit_scan_append ds rest v hdig hv
  by_cases hds : ds = [] <;> simp [matchGroup, h.1, h.2, hds, hvu, hv]

/-- The empty tail: the group captures nothing. -/
theorem matchGroup_nil (u : Char) : matchGroup u [] = (none, []) := by
  simp [matchGroup]

/-- The match succeeds as soon as the literal `PT` is found. -/
theorem matchPT_cons_PT (rest : List Char) :
    matchPT ('P' :: 'T' :: rest) = some (runGroups rest) := by
  simp [matchPT]

/-- The unanchored regular expression matches exactly the strings containing
the literal substring `PT`. -/
theorem matchPT_isSome_iff (cs : List Char) :
    (matchPT cs).isSome ↔ hasPT cs := by
  induction cs with
  | nil =>
    constructor
    · intro h; simp [matchPT] at h
    · rintro ⟨pre, post, h⟩; cases pre <;> simp at h
  | cons a t ih =>
    cases t with
    | nil =>
      constructor
      · intro h; simp [matchPT] at h
      · rintro ⟨pre, post, h⟩
        cases pre with
        | nil => simp at h
        | cons x xs => simp at h
    | cons b r =>
      by_cases hab : a = 'P' ∧ b = 'T'
      · constructor
        · intro _; exact ⟨[], r, by simp [hab.1, hab.2]⟩
        · intro _; simp [matchPT, hab]
      · have hstep : matchPT (a :: b :: r) = matchPT (b :: r) := by
          simp [matchPT, hab]
        rw [hstep, ih]
        constructor
        · rintro ⟨pre, post, h⟩
          exact ⟨a :: pre, post, by simp [h]⟩
        · rintro ⟨pre, post, h⟩
          cases pre with
          | nil =>
            simp at h
            exact absurd ⟨h.1, h.2.1⟩ hab
          | cons x xs =>
            simp at h
            exact ⟨xs, post, h.2⟩

/-- Contrapositive form: no match exactly when no `PT` substring. -/
theorem matchPT_eq_none_iff (cs : List Char) :
    matchPT cs = none ↔ ¬ hasPT cs := by
  rw [← matchPT_isSome_iff]
  cases matchPT cs <;> simp

/-- A string without the letter `P` cannot match. -/
theorem matchPT_none_of_no_P (cs : List Char) (h : ∀ c ∈ cs, c ≠ 'P') :
    matchPT cs = none := by
  rw [matchPT_eq_none_iff]
  rintro ⟨pre, post, he⟩
  exact h 'P' (by simp [he]) rfl

/-- Whatever a group captures is a run of digits. -/
theorem matchGroup_fst_digits (u : Char) (cs : List Char) :
    ∀ ds ∈ (matchGroup u cs).1, ∀ c ∈ ds, c.isDigit := by
  intro ds hds c hc
  simp only [matchGroup] at hds
  split at hds
  · simp at hds
  · split at hds
    · split at hds
      · simp only [Option.mem_def, Option.some.injEq] at hds
        subst hds
        exact List.mem_takeWhile_imp hc
      · simp at hds
    · simp at hds

/-- Unfolding of `runGroups` as the three successive group matches. -/
theorem runGroups_eq (cs : List Char) :
    runGroups cs = ((matchGroup 'H' cs).1,
      (matchGroup 'M' (matchGroup 'H' cs).2).1,
      (matchGroup 'S' (matchGroup 'M' (matchGroup 'H' cs).2).2).1) := rfl

/-- Every group a successful match captures is a run of digits. -/
theorem matchPT_digits (cs : List Char) (h m s : Option (List Char))
    (hm : matchPT cs = some (h, m, s)) :
    (∀ hd ∈ h, ∀ c ∈ hd, c.isDigit) ∧ (∀ md ∈ m, ∀ c ∈ md, c.isDigit) ∧
      (∀ sd ∈ s, ∀ c ∈ sd, c.isDigit) := by
  induction cs with
  | nil => simp [matchPT] at hm
  | cons a t ih =>
    cases t with
    | nil => simp [matchPT] at hm
    | cons b r =>
      by_cases hab : a = 'P' ∧ b = 'T'
      · rw [show matchPT (a :: b :: r) = some (runGroups r) by simp [matchPT, hab],
          runGroups_eq] at hm
        injection hm with hm
        injection hm with hm1 hm2
        injection hm2 with hm2 hm3
        subst hm1; subst hm2; subst hm3
        exact ⟨matchGroup_fst_digits 'H' r,
          matchGroup_fst_digits 'M' (matchGroup 'H' r).2,
          matchGroup_fst_digits 'S' (matchGroup 'M' (matchGroup 'H' r).2).2⟩
      · rw [show matchPT (a :: b :: r) = matchPT (b :: r) by simp [matchPT, hab]] at hm
        exact ih hm

/-- Round-trip of `String.mk` and `String.toList`. -/
theorem toList_mk (l : List Char) : (String.mk l).toList = l := rfl

/-- No match: the input passes through unmodified. -/
theorem formatDuration_of_none (t : String) (h : matchPT t.toList = none) :
    formatDuration t = t := by
  unfold formatDuration
  rw [h]

/-- A match: the output is the rendering of the captured groups. -/
theorem formatDuration_some (s : String) (h m sec : Option (List Char))
    (hm : matchPT s.toList = some (h, m, sec)) :
    formatDuration s = String.mk (renderDuration h m sec) := by
  unfold formatDuration
  rw [hm]

/-- A digit is not the letter `P`. -/
theorem digit_ne_P {c : Char} (h : c.isDigit) : c ≠ 'P' := by
  intro he
  subst he
  exact absurd h (by decide)

/-- Zero-padding a digit run introduces no `P`. -/
theorem padStartZero_noP (n : Nat) (md : List Char) (h : ∀ c ∈ md, c.isDigit) :
    ∀ c ∈ padStartZero n md, c ≠ 'P' := by
  intro c hc
  unfold padStartZero at hc
  rcases List.mem_append.mp hc with h1 | h2
  · rw [List.eq_of_mem_replicate h1]; decide
  · exact digit_ne_P (h c h2)

/-- The rendering of digit-run groups consists of digits, zeros and colons
only, so in particular contains no `P`. -/
theorem renderDuration_noP (h m sec : Option (List Char))
    (dh : ∀ hd ∈ h, ∀ c ∈ hd, c.isDigit) (dm : ∀ md ∈ m, ∀ c ∈ md, c.isDigit)
    (dsec : ∀ sd ∈ sec, ∀ c ∈ sd, c.isDigit) :
    ∀ c ∈ renderDuration h m sec, c ≠ 'P' := by
  intro c hc
  unfold renderDuration at hc
  rcases List.mem_append.mp hc with hc1 | hcS
  · rcases List.mem_append.mp hc1 with hc2 | hcC
    · rcases List.mem_append.mp hc2 with hcH | hcM
      · rcases h with _ | hd2
        · simp at hcH
        · rcases List.mem_append.mp hcH with hcH2 | hcH3
          · exact digit_ne_P (dh hd2 rfl c hcH2)
          · simp at hcH3; subst hcH3; decide
      · rcases m with _ | md2
        · simp at hcM; subst hcM; decide
        · exact padStartZero_noP _ md2 (dm md2 rfl) c hcM
    · simp at hcC; subst hcC; decide
  · rcases sec with _ | sd2
    · simp at hcS; subst hcS; decide
    · exact padStartZero_noP _ sd2 (dsec sd2 rfl) c hcS

/-- Idempotence of `formatDuration` on every string. -/
theorem formatDuration_idem (s : String) :
    formatDuration (formatDuration s) = formatDuration s := by
  cases hm : matchPT s.toList with
  | none =>
    have hfs : formatDuration s = s := formatDuration_of_none s hm
    rw [hfs]
    exact hfs
  | some val =>
    obtain ⟨h, m, sec⟩ := val
    have hd := matchPT_digits s.toList h m sec hm
    have hnone : matchPT (formatDuration s).toList = none := by
      rw [formatDuration_some s h m sec hm, toList_mk]
      exact matchPT_none_of_no_P _ (renderDuration_noP h m sec hd.1 hd.2.1 hd.2.2)
    exact formatDuration_of_none _ hnone

/-- Parsing the body of a well-formed hours-present duration: the three groups
come out exactly as constructed. -/
theorem runGroups_hours (hd : List Char) (mo so : Option (List Char))
    (hne : hd ≠ []) (hdig : ∀ c ∈ hd, c.isDigit)
    (hmo : ∀ md ∈ mo, md ≠ [] ∧ ∀ c ∈ md, c.isDigit)
    (hso : ∀ sd ∈ so, sd ≠ [] ∧ ∀ c ∈ sd, c.isDigit) :
    runGroups (hd ++ 'H' :: (optPart mo 'M' ++ optPart so 'S'))
      = (some hd, mo, so) := by
  rw [runGroups_eq]
  rw [matchGroup_hit 'H' hd _ hne hdig (by decide)]
  rcases mo with _ | md
  · rcases so with _ | sd
    · simp [optPart, matchGroup_nil]
    · have hsd := hso sd rfl
      rw [show optPart none 'M' ++ optPart (some sd) 'S' = sd ++ 'S' :: [] by
        simp [optPart]]
      rw [matchGroup_wrong_unit 'M' 'S' sd [] hsd.2 (by decide) (by decide)]
      rw [matchGroup_hit 'S' sd [] hsd.1 hsd.2 (by decide)]
  · have hmd := hmo md rfl
    rw [show optPart (some md) 'M' ++ optPart so 'S' = md ++ 'M' :: optPart so 'S' by
      simp [optPart]]
    rw [matchGroup_hit 'M' md _ hmd.1 hmd.2 (by decide)]
    rcases so with _ | sd
    · simp [optPart, matchGroup_nil]
    · have hsd := hso sd rfl
      rw [show optPart (some sd) 'S' = sd ++ 'S' :: [] by simp [optPart]]
      rw [matchGroup_hit 'S' sd [] hsd.1 hsd.2 (by decide)]

/-- C1: For every well-formed ISO-8601 duration string whose hours component
is present — `PT`, a non-empty digit run `hd` followed by `H`, then optional
`mMM` and `sS` components with non-empty digit runs — `formatDuration` returns
hours, a colon, the minutes field zero-padded to 2 digits (the single digit
`0` when the minutes component is absent), a colon, and the seconds field
zero-padded to 2 digits (`00` when absent). -/
theorem formatDuration_hours_present (hd : List Char) (mo so : Option (List Char))
    (hne : hd ≠ []) (hdig : ∀ c ∈ hd, c.isDigit)
    (hmo : ∀ md ∈ mo, md ≠ [] ∧ ∀ c ∈ md, c.isDigit)
    (hso : ∀ sd ∈ so, sd ≠ [] ∧ ∀ c ∈ sd, c.isDigit) :
    formatDuration (String.mk ('P' :: 'T' :: (hd ++ 'H' :: (optPart mo 'M' ++ optPart so 'S'))))
      = String.mk (hd ++ ':' :: (minutesField mo ++ ':' :: secondsField so)) := by
  have hparse : matchPT (String.mk ('P' :: 'T' ::
      (hd ++ 'H' :: (optPart mo 'M' ++ optPart so 'S')))).toList = some (some hd, mo, so) := by
    rw [toList_mk, matchPT_cons_PT, runGroups_hours hd mo so hne hdig hmo hso]
  rw [formatDuration_some _ _ _ _ hparse]
  congr 1
  unfold renderDuration
  rcases mo with _ | md <;> rcases so with _ | sd <;>
    simp [minutesField, secondsField]

/-- Witness for C1 at the concrete input `PT1H5S` (hours present, minutes
absent, seconds `5`): the output is `1:0:05`. -/
theorem formatDuration_hours_present_witness :
    formatDuration (String.mk ('P' :: 'T' ::
        (['1'] ++ 'H' :: (optPart none 'M' ++ optPart (some ['5']) 'S'))))
      = String.mk (['1'] ++ ':' :: (minutesField none ++ ':' :: secondsField (some ['5']))) :=
  formatDuration_hours_present ['1'] none (some ['5'])
    (by decide) (by decide) (by decide) (by decide)

/-- C6: `formatDuration` is idempotent (on every input, in particular on every
well-formed one: a formatted result contains no `PT`, so formatting it again
passes it through), and the round-trip vectors hold: `PT1H2M10S` gives
`1:02:10`, `PT45S` gives `0:45`, `PT5M` gives `5:00`. -/
theorem formatDuration_idempotent_and_round_trip :
    (∀ s : String, formatDuration (formatDuration s) = formatDuration s) ∧
    formatDuration "PT1H2M10S" = "1:02:10" ∧
    formatDuration "PT45S" = "0:45" ∧
    formatDuration "PT5M" = "5:00" :=
  ⟨formatDuration_idem, by decide, by decide, by decide⟩

/-- C7: an input in which the literal substring `PT` does not occur — i.e. one
that does not match the (all-components-optional) duration pattern — is
returned unmodified. -/
theorem formatDuration_passthrough (s : String) (h : ¬ hasPT s.toList) :
    formatDuration s = s :=
  formatDuration_of_none s ((matchPT_eq_none_iff s.toList).mpr h)

/-- Witness for C7 at the concrete input `1 hour`, which contains no `PT`. -/
theorem formatDuration_passthrough_witness :
    formatDuration "1 hour" = "1 hour" :=
  formatDuration_passthrough "1 hour"
    ((matchPT_eq_none_iff ("1 hour" : String).toList).mp (by decide))

/-- C10: the pattern match is unanchored and all three components are
optional, so an input matches exactly when it contains the literal substring
`PT` anywhere; in particular `formatDuration "PT" = "0:00"` and a `PT`-free
day-bearing duration such as `P1DT2H3M4S` is returned unchanged. -/
theorem matchPT_unanchored :
    (∀ s : String, (matchPT s.toList).isSome ↔ hasPT s.toList) ∧
    formatDuration "PT" = "0:00" ∧
    formatDuration "P1DT2H3M4S" = "P1DT2H3M4S" :=
  ⟨fun s => matchPT_isSome_iff s.toList, by decide, by decide⟩

/-- Zero has no binary digits at any fuel. -/
theorem bitLenAux_zero (fuel : Nat) : bitLenAux fuel 0 = 0 := by
  cases fuel <;> rfl

/-- Correctness of the fuel-driven binary length on positive values. -/
theorem bitLenAux_spec (fuel : Nat) :
    ∀ v : Nat, 0 < v → v ≤ fuel →
      1 ≤ bitLenAux fuel v ∧ 2 ^ (bitLenAux fuel v - 1) ≤ v ∧ v < 2 ^ bitLenAux fuel v := by
  induction fuel with
  | zero => intro v hv hf; omega
  | succ f ih =>
    intro v hv hf
    rw [show bitLenAux (f + 1) v = if v = 0 then 0 else bitLenAux f (v / 2) + 1 from rfl,
      if_neg (by omega)]
    by_cases hv1 : v = 1
    · subst hv1
      rw [show (1 : Nat) / 2 = 0 from rfl, bitLenAux_zero]
      decide
    · have hd1 : 0 < v / 2 := by omega
      have hd2 : v / 2 ≤ f := by omega
      obtain ⟨ihB, ih1, ih2⟩ := ih (v / 2) hd1 hd2
      refine ⟨by omega, ?_, ?_⟩
      · have e1 : (2 : Nat) ^ (bitLenAux f (v / 2)) = 2 * 2 ^ (bitLenAux f (v / 2) - 1) := by
          conv_lhs => rw [show bitLenAux f (v / 2) = bitLenAux f (v / 2) - 1 + 1 by omega]
          rw [pow_succ, Nat.mul_comm]
        have e0 : bitLenAux f (v / 2) + 1 - 1 = bitLenAux f (v / 2) := by omega
        rw [e0]
        omega
      · have e2 : (2 : Nat) ^ (bitLenAux f (v / 2) + 1) = 2 * 2 ^ (bitLenAux f (v / 2)) := by
          rw [pow_succ, Nat.mul_comm]
        omega

/-- Bounds for ties-to-even rounding: the result is within half of `p / q`
(with the tie direction decided by evenness, not pinned here). -/
theorem roundHalfEven_bounds (p q : Nat) (hq : 0 < q) :
    2 * roundHalfEven p q * q ≤ 2 * p + q ∧ 2 * p ≤ 2 * roundHalfEven p q * q + q := by
  have hdm : q * (p / q) + p % q = p := Nat.div_add_mod p q
  have hlt : p % q < q := Nat.mod_lt _ hq
  simp only [roundHalfEven]
  generalize hi : p / q = i at *
  generalize hr : p % q = r at *
  subst hdm
  split_ifs with h1 h2 h3 <;> constructor <;> nlinarith [hlt]

/-- Arithmetic core of the one-decimal-place guarantee: if `m` is within half
a unit of `n * A / d` and `k` is the ties-up rounding of `(20 m + A) / (2 A)`,
then `k` tenths is within half a tenth of the exact quotient `n / d`,
non-strictly on both sides, provided the significand scale `A` dwarfs `d`. -/
theorem tenths_window (d A n m k rem : Nat) (hd : 0 < d) (hA : 10 * d < A)
    (hm1 : 2 * m * d ≤ 2 * (n * A) + d)
    (hm2 : 2 * (n * A) ≤ 2 * m * d + d)
    (hk : 2 * A * k + rem = 20 * m + A) (hrem : rem < 2 * A) :
    2 * d * k ≤ 20 * n + d ∧ 20 * n ≤ 2 * d * k + d := by
  constructor
  · by_contra hcon
    push_neg at hcon
    have h1 : 2 * A * k ≤ 20 * m + A := by omega
    have h2 : d * (2 * A * k) ≤ d * (20 * m + A) := Nat.mul_le_mul_left d h1
    have h3 : A * (20 * n + d + 1) ≤ A * (2 * d * k) := Nat.mul_le_mul_left A (by omega)
    nlinarith [h2, h3, hm1, hA]
  · by_contra hcon
    push_neg at hcon
    have h1 : 20 * m + A + 1 ≤ 2 * A * k + 2 * A := by omega
    have h2 : d * (20 * m + A + 1) ≤ d * (2 * A * k + 2 * A) := Nat.mul_le_mul_left d h1
    have h3 : A * (2 * d * k + d + 1) ≤ A * (20 * n) := Nat.mul_le_mul_left A (by omega)
    nlinarith [h2, h3, hm2, hA, hd]

/-- The tenths value printed for `n / d` is within half a tenth of the exact
quotient whenever the quotient's binade leaves the 53-bit significand scale
well above `d`. -/
theorem tenths_bounds (n d : Nat) (hd : 0 < d)
    (hE : bitLen (n / d) ≤ 53) (hA : 10 * d < 2 ^ (53 - bitLen (n / d))) :
    2 * d * tenths n d ≤ 20 * n + d ∧ 20 * n ≤ 2 * d * tenths n d + d := by
  have h0 : bitLen (n / d) - 53 = 0 := by omega
  have hexp : tenths n d
      = (20 * roundHalfEven (n * 2 ^ (53 - bitLen (n / d))) d + 2 ^ (53 - bitLen (n / d)))
        / (2 * 2 ^ (53 - bitLen (n / d))) := by
    simp only [tenths, h0, pow_zero, mul_one]
  have hApos : 0 < 2 ^ (53 - bitLen (n / d)) := pow_pos (by omega) _
  have hb := roundHalfEven_bounds (n * 2 ^ (53 - bitLen (n / d))) d hd
  have hdm := Nat.div_add_mod
    (20 * roundHalfEven (n * 2 ^ (53 - bitLen (n / d))) d + 2 ^ (53 - bitLen (n / d)))
    (2 * 2 ^ (53 - bitLen (n / d)))
  have hrem := Nat.mod_lt
    (20 * roundHalfEven (n * 2 ^ (53 - bitLen (n / d))) d + 2 ^ (53 - bitLen (n / d)))
    (y := 2 * 2 ^ (53 - bitLen (n / d))) (by omega)
  rw [hexp]
  exact tenths_window d (2 ^ (53 - bitLen (n / d))) n
    (roundHalfEven (n * 2 ^ (53 - bitLen (n / d))) d) _ _ hd hA hb.1 hb.2 hdm hrem

/-- C8: `formatNumber` renders `n ≥ 1,000,000` as tenths of millions with one
decimal place and an `M` suffix, `1,000 ≤ n < 1,000,000` as tenths of
thousands with one decimal place and a `K` suffix, and `n < 1,000` as the
plain integer string.  The printed tenths value is within half a tenth of the
exact quotient, non-strictly on both sides: the binary64 division decides the
direction of a tie (stated across the JavaScript-exact range `n ≤ 10^14`;
the spec makes no rounding-mode guarantee beyond standard rounding).
Concrete vectors: `999`, `1.5K`, `2.3M`; at the ties the embedding reproduces
the source's float behavior, `1150 ↦ 1.1K` and `1450000 ↦ 1.4M`. -/
theorem formatNumber_abbreviation :
    (∀ n : Nat, 1000000 ≤ n → n ≤ 100000000000000 → ∃ k,
      formatNumber n = toString (k / 10) ++ "." ++ toString (k % 10) ++ "M" ∧
      1000000 * k ≤ 10 * n + 500000 ∧ 10 * n ≤ 1000000 * k + 500000) ∧
    (∀ n : Nat, 1000 ≤ n → n < 1000000 → ∃ k,
      formatNumber n = toString (k / 10) ++ "." ++ toString (k % 10) ++ "K" ∧
      1000 * k ≤ 10 * n + 500 ∧ 10 * n ≤ 1000 * k + 500) ∧
    (∀ n : Nat, n < 1000 → formatNumber n = toString n) ∧
    formatNumber 999 = "999" ∧ formatNumber 1500 = "1.5K" ∧
    formatNumber 2300000 = "2.3M" ∧
    formatNumber 1150 = "1.1K" ∧ formatNumber 1450000 = "1.4M" := by
  refine ⟨?_, ?_, ?_, by decide, by decide, by decide, by decide, by decide⟩
  · intro n h1 h2
    have hv : 1 ≤ n / 1000000 := (Nat.one_le_div_iff (by omega)).mpr h1
    have hv2 : n / 1000000 ≤ 100000000 := by omega
    obtain ⟨hB1, hB2, hB3⟩ :=
      bitLenAux_spec (n / 1000000) (n / 1000000) (by omega) (le_refl _)
    have hE27 : bitLen (n / 1000000) ≤ 27 := by
      by_contra hcon
      push_neg at hcon
      have hmono : (2 : Nat) ^ 27 ≤ 2 ^ (bitLen (n / 1000000) - 1) :=
        Nat.pow_le_pow_right (by omega) (by omega)
      have h27 : (2 : Nat) ^ 27 = 134217728 := by norm_num
      unfold bitLen at *
      omega
    have hA : 10 * 1000000 < 2 ^ (53 - bitLen (n / 1000000)) := by
      have hmono : (2 : Nat) ^ 26 ≤ 2 ^ (53 - bitLen (n / 1000000)) :=
        Nat.pow_le_pow_right (by omega) (by omega)
      have h26 : (2 : Nat) ^ 26 = 67108864 := by norm_num
      omega
    have hw := tenths_bounds n 1000000 (by omega) (by omega) hA
    refine ⟨tenths n 1000000, ?_, by omega, by omega⟩
    simp [formatNumber, toFixed1, h1]
  · intro n h1 h2
    have hv : 1 ≤ n / 1000 := (Nat.one_le_div_iff (by omega)).mpr h1
    have hv2 : n / 1000 ≤ 999 := by omega
    obtain ⟨hB1, hB2, hB3⟩ :=
      bitLenAux_spec (n / 1000) (n / 1000) (by omega) (le_refl _)
    have hE10 : bitLen (n / 1000) ≤ 10 := by
      by_contra hcon
      push_neg at hcon
      have hmono : (2 : Nat) ^ 10 ≤ 2 ^ (bitLen (n / 1000) - 1) :=
        Nat.pow_le_pow_right (by omega) (by omega)
      have h10 : (2 : Nat) ^ 10 = 1024 := by norm_num
      unfold bitLen at *
      omega
    have hA : 10 * 1000 < 2 ^ (53 - bitLen (n / 1000)) := by
      have hmono : (2 : Nat) ^ 43 ≤ 2 ^ (53 - bitLen (n / 1000)) :=
        Nat.pow_le_pow_right (by omega) (by omega)
      have h43 : (2 : Nat) ^ 43 = 8796093022208 := by norm_num
      omega
    have hw := tenths_bounds n 1000 (by omega) (by omega) hA
    refine ⟨tenths n 1000, ?_, by omega, by omega⟩
    have h3 : ¬ n ≥ 1000000 := by omega
    simp [formatNumber, toFixed1, h1, h3]
  · intro n h
    have h1 : ¬ n ≥ 1000000 := by omega
    have h2 : ¬ n ≥ 1000 := by omega
    simp [formatNumber, h1, h2]

/-- Witness for C8 at `n = 2300000` (the `M` branch) and `n = 1500` (the `K`
branch). -/
theorem formatNumber_abbreviation_witness :
    (∃ k, formatNumber 2300000 = toString (k / 10) ++ "." ++ toString (k % 10) ++ "M" ∧
      1000000 * k ≤ 10 * 2300000 + 500000 ∧ 10 * 2300000 ≤ 1000000 * k + 500000) ∧
    (∃ k, formatNumber 1500 = toString (k / 10) ++ "." ++ toString (k % 10) ++ "K" ∧
      1000 * k ≤ 10 * 1500 + 500 ∧ 10 * 1500 ≤ 1000 * k + 500) :=
  ⟨formatNumber_abbreviation.1 2300000 (by decide) (by decide),
   formatNumber_abbreviation.2.1 1500 (by decide) (by decide)⟩

/-- With enough fuel, the batches concatenate back to the input list. -/
theorem chunksAux_flatten (fuel : Nat) :
    ∀ l : List String, l.length ≤ fuel → (chunksAux fuel l).flatten = l := by
  induction fuel with
  | zero =>
    intro l hl
    match l with
    | [] => rfl
    | a :: rest => simp at hl
  | succ f ih =>
    intro l hl
    match l with
    | [] => rfl
    | a :: rest =>
      have hd : ((a :: rest).drop 50).length ≤ f := by
        simp only [List.length_drop]
        simp at hl ⊢
        omega
      simp only [chunksAux, List.flatten_cons, ih _ hd, List.take_append_drop]

/-- With enough fuel, the number of batches is `⌈length / 50⌉`. -/
theorem chunksAux_length (fuel : Nat) :
    ∀ l : List String, l.length ≤ fuel →
      (chunksAux fuel l).length = (l.length + 49) / 50 := by
  induction fuel with
  | zero =>
    intro l hl
    match l with
    | [] => rfl
    | a :: rest => simp at hl
  | succ f ih =>
    intro l hl
    match l with
    | [] => rfl
    | a :: rest =>
      have hd : ((a :: rest).drop 50).length ≤ f := by
        simp only [List.length_drop]
        simp at hl ⊢
        omega
      rw [show chunksAux (f + 1) (a :: rest)
            = ((a :: rest).take 50) :: chunksAux f ((a :: rest).drop 50) from rfl]
      rw [List.length_cons, ih _ hd]
      simp only [List.length_drop, List.length_cons]
      omega

/-- With enough fuel, every batch holds at most 50 identifiers. -/
theorem chunksAux_sizes (fuel : Nat) :
    ∀ l : List String, l.length ≤ fuel →
      ∀ b ∈ chunksAux fuel l, b.length ≤ 50 := by
  induction fuel with
  | zero =>
    intro l hl b hb
    match l with
    | [] => simp [chunksAux] at hb
    | a :: rest => simp at hl
  | succ f ih =>
    intro l hl b hb
    match l with
    | [] => simp [chunksAux] at hb
    | a :: rest =>
      have hd : ((a :: rest).drop 50).length ≤ f := by
        simp only [List.length_drop]
        simp at hl ⊢
        omega
      simp only [chunksAux, List.mem_cons] at hb
      rcases hb with hb | hb
      · subst hb
        simp [List.length_take]
      · exact ih _ hd b hb

set_option maxRecDepth 4000 in
/-- C5: `getVideoDetails` slices the identifier list into `⌈N/50⌉` consecutive
batches of at most 50 (the batches concatenate back to the input, so nothing
is added, dropped or reordered), issues one request per batch, and keeps
exactly the identifiers the platform answers for, in order — an identifier
with no matching item is silently excluded; concretely, the 120 identifiers
`"0".."119"` form 3 batches of sizes 50, 50, 20, and with `"59"` unmatched
the result has exactly 119 entries. -/
theorem getVideoDetails_batches (details : String → Option Video) (videoIds : List String) :
    (chunks videoIds).length = (videoIds.length + 49) / 50 ∧
    (∀ b ∈ chunks videoIds, b.length ≤ 50) ∧
    (chunks videoIds).flatten = videoIds ∧
    getVideoDetails details videoIds = videoIds.filterMap details ∧
    (chunks demoIds120).map List.length = [50, 50, 20] ∧
    (getVideoDetails demoDetails demoIds120).length = 119 := by
  refine ⟨chunksAux_length _ _ (Nat.le_refl _), chunksAux_sizes _ _ (Nat.le_refl _),
    chunksAux_flatten _ _ (Nat.le_refl _), ?_, by decide, by decide⟩
  unfold getVideoDetails chunks
  rw [← List.filterMap_flatten, chunksAux_flatten _ _ (Nat.le_refl _)]

/-- The pagination loop, started at page `k` with fuel `≥` the remaining page
count, collects the items of all remaining pages onto the accumulator. -/
theorem getAllVideoIdsLoop_collects (pages : List Page)
    (hchain : ∀ i (h : i + 1 < pages.length),
      (pages.get ⟨i, Nat.lt_of_succ_lt h⟩).nextPageToken = some (i + 1))
    (hlast : ∀ (h : pages ≠ []), (pages.getLast h).nextPageToken = none) :
    ∀ (fuel k : Nat) (acc : List String), k < pages.length →
      pages.length - k ≤ fuel →
      getAllVideoIdsLoop pages fuel k acc
        = some (acc ++ ((pages.drop k).map Page.items).flatten) := by
  intro fuel
  induction fuel with
  | zero =>
    intro k acc hk hf
    omega
  | succ f ih =>
    intro k acc hk hf
    have hne : pages ≠ [] := by
      intro he
      rw [he] at hk
      simp at hk
    rw [show getAllVideoIdsLoop pages (f + 1) k acc
          = match pages[k]? with
            | none => none
            | some p =>
              match p.nextPageToken with
              | none => some (acc ++ p.items)
              | some t => getAllVideoIdsLoop pages f t (acc ++ p.items) from rfl]
    rw [List.getElem?_eq_getElem hk]
    show (match pages[k].nextPageToken with
          | none => some (acc ++ pages[k].items)
          | some t => getAllVideoIdsLoop pages f t (acc ++ pages[k].items))
        = some (acc ++ ((pages.drop k).map Page.items).flatten)
    by_cases hend : k = pages.length - 1
    · subst hend
      have htok : pages[pages.length - 1].nextPageToken = none := by
        have := hlast hne
        rw [List.getLast_eq_getElem] at this
        exact this
      rw [htok]
      have hdrop : pages.drop (pages.length - 1) = [pages[pages.length - 1]] := by
        rw [List.drop_eq_getElem_cons hk]
        have hnil : pages.drop (pages.length - 1 + 1) = [] := by
          apply List.drop_eq_nil_of_le
          omega
        rw [hnil]
      rw [hdrop]
      simp
    · have hk1 : k + 1 < pages.length := by omega
      have htok : pages[k].nextPageToken = some (k + 1) := by
        have := hchain k hk1
        simpa using this
      rw [htok]
      show getAllVideoIdsLoop pages f (k + 1) (acc ++ pages[k].items)
          = some (acc ++ ((pages.drop k).map Page.items).flatten)
      rw [ih (k + 1) (acc ++ pages[k].items) hk1 (by omega)]
      rw [List.drop_eq_getElem_cons hk]
      simp
      have hkm : k < (List.map Page.items pages).length := by simpa using hk
      rw [List.drop_eq_getElem_cons hkm]
      simp

/-- C3: for every finite page sequence in which consecutive pages are linked
by cursors and exactly the last page carries none, `getAllVideoIds`
terminates (within fuel equal to the page count, i.e. the do/while loop runs
once per page) and returns exactly the concatenation of all pages' video
identifiers, in page order and within-page order, adding and dropping
nothing; the loop stops precisely because the cursor is absent. -/
theorem getAllVideoIds_concatenates (pages : List Page) (hne : pages ≠ [])
    (hchain : ∀ i (h : i + 1 < pages.length),
      (pages.get ⟨i, Nat.lt_of_succ_lt h⟩).nextPageToken = some (i + 1))
    (hlast : ∀ (h : pages ≠ []), (pages.getLast h).nextPageToken = none) :
    getAllVideoIds pages = some ((pages.map Page.items).flatten) := by
  unfold getAllVideoIds
  rw [getAllVideoIdsLoop_collects pages hchain hlast pages.length 0 []
    (List.length_pos.mpr hne) (by omega)]
  simp

/-- Witness for C3 on the concrete two-page playlist: the collector returns
`["a", "b", "c"]`. -/
theorem getAllVideoIds_concatenates_witness :
    getAllVideoIds demoPages = some ["a", "b", "c"] := by
  have h := getAllVideoIds_concatenates demoPages (by decide)
    (fun i hi => by
      have : i = 0 := by simp [demoPages] at hi; omega
      subst this
      rfl)
    (fun _ => by rfl)
  rw [h]
  rfl

/-- The comparator `(a, b) => b.viewCount - a.viewCount` is transitive and
total, so the sorted list is pairwise descending by view count. -/
theorem sortVideos_pairwise (L : List Video) :
    (sortVideos L).Pairwise (fun a b => b.viewCount ≤ a.viewCount) := by
  have hp := @List.sorted_mergeSort Video
    (fun a b : Video => decide (b.viewCount ≤ a.viewCount))
    (fun a b c hab hbc => by
      simp only [decide_eq_true_eq] at hab hbc ⊢
      omega)
    (fun a b => by
      simp only [Bool.or_eq_true, decide_eq_true_eq]
      exact Nat.le_total b.viewCount a.viewCount) L
  refine hp.imp ?_
  intro a b hab
  simpa using hab

/-- Index form of the descending order. -/
theorem sortVideos_sorted_get (L : List Video) (i j : Nat)
    (hi : i < (sortVideos L).length) (hj : j < (sortVideos L).length)
    (hij : i < j) :
    ((sortVideos L).get ⟨j, hj⟩).viewCount ≤ ((sortVideos L).get ⟨i, hi⟩).viewCount := by
  have hp := sortVideos_pairwise L
  rw [List.pairwise_iff_get] at hp
  exact hp ⟨i, hi⟩ ⟨j, hj⟩ hij

/-- Ranking does not change the number of videos. -/
theorem rankedVideos_length (L : List Video) :
    (rankedVideos L).length = (sortVideos L).length := by
  simp [rankedVideos]

/-- The entry at sorted position `i` is the sorted video paired with rank
`i + 1`. -/
theorem rankedVideos_get (L : List Video) (i : Nat) (hi : i < (rankedVideos L).length) :
    (rankedVideos L).get ⟨i, hi⟩
      = (i + 1, (sortVideos L).get ⟨i, by rw [← rankedVideos_length L]; exact hi⟩) := by
  simp [rankedVideos]

/-- C4: after sorting by view count descending, the rank at sorted position
`i` is `i + 1` — a function of the final position only, independent of any
identifier — the view counts are non-increasing along positions, and whenever
the video at position `i < j` has strictly more views its rank is strictly
smaller. -/
theorem rank_order (L : List Video) (i j : Nat)
    (hi : i < (rankedVideos L).length) (hj : j < (rankedVideos L).length)
    (hij : i < j) :
    ((rankedVideos L).get ⟨i, hi⟩).1 = i + 1 ∧
    ((rankedVideos L).get ⟨j, hj⟩).2.viewCount ≤ ((rankedVideos L).get ⟨i, hi⟩).2.viewCount ∧
    (((rankedVideos L).get ⟨j, hj⟩).2.viewCount < ((rankedVideos L).get ⟨i, hi⟩).2.viewCount →
      ((rankedVideos L).get ⟨i, hi⟩).1 < ((rankedVideos L).get ⟨j, hj⟩).1) := by
  have hi2 : i < (sortVideos L).length := by rw [← rankedVideos_length L]; exact hi
  have hj2 : j < (sortVideos L).length := by rw [← rankedVideos_length L]; exact hj
  rw [rankedVideos_get L i hi, rankedVideos_get L j hj]
  exact ⟨rfl, sortVideos_sorted_get L i j hi2 hj2 hij, fun _ => by omega⟩

/-- The concrete ranked list has two entries. -/
theorem demo_ranked_length : (rankedVideos demoVideos).length = 2 := by
  rw [rankedVideos_length]
  unfold sortVideos
  rw [List.length_mergeSort]
  rfl

/-- Witness for C4 on the concrete two-video list at positions 0 < 1. -/
theorem rank_order_witness :
    ((rankedVideos demoVideos).get ⟨0, by rw [demo_ranked_length]; omega⟩).1 = 0 + 1 ∧
    ((rankedVideos demoVideos).get ⟨1, by rw [demo_ranked_length]; omega⟩).2.viewCount ≤
      ((rankedVideos demoVideos).get ⟨0, by rw [demo_ranked_length]; omega⟩).2.viewCount :=
  ⟨(rank_order demoVideos 0 1 (by rw [demo_ranked_length]; omega)
      (by rw [demo_ranked_length]; omega) (by omega)).1,
   (rank_order demoVideos 0 1 (by rw [demo_ranked_length]; omega)
      (by rw [demo_ranked_length]; omega) (by omega)).2.1⟩

/-- Length of a `String.mk` string is the list length. -/
theorem length_mk (l : List Char) : (String.mk l).length = l.length := rfl

/-- Length of `String.toList` is the string length. -/
theorem toList_length (t : String) : t.toList.length = t.length := rfl

/-- The JSON output has one entry per sorted video. -/
theorem jsonOutput_length (L : List Video) :
    (jsonOutput L).length = (sortVideos L).length := by
  simp [jsonOutput]

/-- C9: a title longer than 60 characters appears in the table row as its
first 57 characters followed by the three-character ellipsis marker — 60
characters in total — while a title of at most 60 characters appears
unmodified; the JSON entry at any position carries the sorted video record
itself, hence the full untruncated title. -/
theorem title_truncation (t : String) (L : List Video) (i : Nat)
    (hi : i < (jsonOutput L).length) (hj : i < (sortVideos L).length) :
    (t.length > 60 → (truncateTitle t).toList = t.toList.take 57 ++ ['.', '.', '.'] ∧
      (truncateTitle t).length = 60) ∧
    (t.length ≤ 60 → truncateTitle t = t) ∧
    ((jsonOutput L).get ⟨i, hi⟩).video = (sortVideos L).get ⟨i, hj⟩ ∧
    ((jsonOutput L).get ⟨i, hi⟩).video.title = ((sortVideos L).get ⟨i, hj⟩).title := by
  have hjson : ((jsonOutput L).get ⟨i, hi⟩).video = (sortVideos L).get ⟨i, hj⟩ := by
    simp [jsonOutput]
  refine ⟨?_, ?_, hjson, by rw [hjson]⟩
  · intro h
    constructor
    · rw [truncateTitle, if_pos h, toList_mk]
    · rw [truncateTitle, if_pos h, length_mk]
      have h70 : t.toList.length = t.length := toList_length t
      simp only [List.length_append, List.length_take]
      simp only [List.length_cons, List.length_nil]
      omega
  · intro h
    rw [truncateTitle, if_neg (by omega)]

/-- The concrete JSON output has two entries. -/
theorem demo_json_length : (jsonOutput demoVideos).length = 2 := by
  rw [jsonOutput_length]
  unfold sortVideos
  rw [List.length_mergeSort]
  rfl

/-- The concrete sorted list has two entries. -/
theorem demo_sorted_length : (sortVideos demoVideos).length = 2 := by
  unfold sortVideos
  rw [List.length_mergeSort]
  rfl

/-- Witness for C9: the 70-character title truncates to 57 characters plus
the ellipsis (60 total), and the first JSON entry of the concrete list keeps
the full title of its sorted video. -/
theorem title_truncation_witness :
    ((truncateTitle demoTitle70).toList = demoTitle70.toList.take 57 ++ ['.', '.', '.'] ∧
      (truncateTitle demoTitle70).length = 60) ∧
    ((jsonOutput demoVideos).get ⟨0, by rw [demo_json_length]; omega⟩).video.title
      = ((sortVideos demoVideos).get ⟨0, by rw [demo_sorted_length]; omega⟩).title :=
  ⟨(title_truncation demoTitle70 demoVideos 0 (by rw [demo_json_length]; omega)
      (by rw [demo_sorted_length]; omega)).1 (by decide),
   (title_truncation demoTitle70 demoVideos 0 (by rw [demo_json_length]; omega)
      (by rw [demo_sorted_length]; omega)).2.2.2⟩

/-- Counterexample to C2 as stated: on a failing run the error does propagate
to the top of `main`, is printed, and no JSON file is written — but the final
`.catch(console.error)` handles the rejection, so the process exits with code
0, not with a non-zero code. -/
theorem error_exit_code_counterexample :
    mainRun badEnv = Except.error (PipeError.network 0) ∧
    (runTop badEnv).printedError = some (PipeError.network 0) ∧
    (runTop badEnv).jsonFile = none ∧
    (runTop badEnv).exitCode = 0 ∧
    ¬ (runTop badEnv).exitCode ≠ 0 :=
  ⟨rfl, rfl, rfl, rfl, fun h => h rfl⟩

/-- C2 (amended): an error in any pipeline stage short-circuits `main` — a
transport failure of the channel lookup propagates as is, an empty channel
lookup raises `Channel not found`, a missing nested uploads field raises the
`TypeError` — and whenever `main` ends in an error, the `.catch` handler
prints that error, no JSON file is written, and the process exits with code
0 (not a non-zero code). -/
theorem pipeline_error_caught (env : Env) (e : PipeError) :
    (env.channelItems = Except.error e → mainRun env = Except.error e) ∧
    (env.channelItems = Except.ok [] →
      mainRun env = Except.error (PipeError.channelNotFound CHANNEL_HANDLE)) ∧
    (∀ cid rest, env.channelItems = Except.ok (cid :: rest) →
      env.channelContent = Except.ok none →
      mainRun env = Except.error PipeError.missingField) ∧
    (mainRun env = Except.error e → runTop env = ⟨0, some e, none⟩) := by
  refine ⟨?_, ?_, ?_, ?_⟩
  · intro h
    unfold mainRun getChannelId
    rw [h]
    rfl
  · intro h
    unfold mainRun getChannelId
    rw [h]
    rfl
  · intro cid rest h1 h2
    unfold mainRun getChannelId getUploadsPlaylistId
    rw [h1, h2]
    rfl
  · intro h
    simp [runTop, h]

/-- Witness for C2 (amended) on the concrete failing run: the transport error
propagates out of `main`, is printed by the handler, the JSON file is not
written, and the exit code is 0. -/
theorem pipeline_error_caught_witness :
    mainRun badEnv = Except.error (PipeError.network 0) ∧
    runTop badEnv = ⟨0, some (PipeError.network 0), none⟩ :=
  ⟨(pipeline_error_caught badEnv (PipeError.network 0)).1 rfl,
   (pipeline_error_caught badEnv (PipeError.network 0)).2.2.2
     ((pipeline_error_caught badEnv (PipeError.network 0)).1 rfl)⟩

/-- Witness for C5: applying the batch theorem at a concrete two-identifier
list, whose single batch indeed holds at most 50 identifiers. -/
theorem getVideoDetails_batches_witness :
    (["x", "y"] : List String).length ≤ 50 :=
  (getVideoDetails_batches (fun _ => none) ["x", "y"]).2.1 ["x", "y"] (by decide)
